import Mathlib

/-!
Verification of the TOC-extraction core of the `006_book_plugin` repository.

The development shallowly embeds, in Lean, the parts of the TypeScript source
relevant to the frozen claims:

* `ImprovedTOCExtractor` (src/src/api/toc-extractor-improved.ts):
  the validator `isValidTableOfContentsStrict`, the confidence scorer
  `calculateConfidence`, and the orchestration loop of
  `extractTableOfContents`.  The four concrete network strategies are
  abstracted as a list of `StrategyOutcome`s (the value each strategy call
  produced, or the exception it threw); the loop over them is embedded
  verbatim.
* `Yes24Scraper.scrape` (src/src/scraper/yes24-scraper.ts): its
  try/catch shell, with the internal fetch helpers abstracted as
  `Except`-valued outcomes.
* `MultiSiteScraper` and `SimpleCache` (multi-site-scraper.ts): the TTL
  cache, `scrapeTOC`, and its 0..100 `calculateConfidence`.
* `TOCPerformanceMonitor` (src/src/api/toc-performance.ts): `recordResult`,
  `getMethodSuccessRates`, `getBestMethod`.

JavaScript regular expressions are embedded with a small explicit pattern
matcher (`PatAtom`, `matchSeq`); character classes `\d`, `\s`, `[가-힣]`
become decidable character predicates.  JavaScript numbers are modelled as
exact rationals (scores of the multi-site scraper, which are integer-valued,
as integers).  JavaScript `Map`s become association lists.  Logging and the
per-extractor attempt/success counters (observable only through debug
output) are not modelled.
-/

/-! ## Character classes and basic string helpers (JS semantics) -/

/-- The JS `\s` class / `String.prototype.trim` whitespace, restricted to the
characters that can occur in the data handled here. -/
def isJsWhite (c : Char) : Bool :=
  c = ' ' || c = '\t' || c = '\n' || c = '\r' || c = '\x0b' || c = '\x0c' ||
  c = ' '

/-- The JS `\d` class. -/
def isDigitCh (c : Char) : Bool := '0' ≤ c && c ≤ '9'

/-- The `[가-힣]` class (Hangul syllables). -/
def isHangulCh (c : Char) : Bool := '가' ≤ c && c ≤ '힣'

/-- `String.prototype.trim` on a character list. -/
def trimChars (cs : List Char) : List Char :=
  (((cs.dropWhile isJsWhite).reverse).dropWhile isJsWhite).reverse

/-- JS `s.trim()`. -/
def jsTrim (s : String) : String := ⟨trimChars s.data⟩

/-- JS `s.split('\n')`: split at every newline, keeping empty segments. -/
def splitOnNL (cs : List Char) : List (List Char) :=
  cs.foldr
    (fun c gs =>
      if c = '\n' then [] :: gs
      else
        match gs with
        | [] => [[c]]
        | g :: rest => (c :: g) :: rest)
    [[]]

/-- One step of `splitRunsNL` (right fold).  The boolean records whether the
character just to the right was a newline, so that a run of newlines
produces a single split, as `s.split(/\n+/)` does. -/
def splitRunsStep (c : Char) (st : List (List Char) × Bool) :
    List (List Char) × Bool :=
  if c = '\n' then
    if st.2 then (st.1, true)
    else ([] :: st.1, true)
  else
    match st.1 with
    | [] => ([[c]], false)
    | g :: rest => ((c :: g) :: rest, false)

/-- JS `s.split(/\n+/)`: split at every maximal run of newlines. -/
def splitRunsNL (cs : List Char) : List (List Char) :=
  (cs.foldr splitRunsStep ([[]], false)).1

/-- `pat` is a leading subsequence of `text` (character-wise equality). -/
def startsWithChars : List Char → List Char → Bool
  | [], _ => true
  | _ :: _, [] => false
  | p :: ps, c :: cs => p = c && startsWithChars ps cs

/-- `pat` occurs contiguously inside `text` — JS `text.includes(pat)`. -/
def containsChars (pat : List Char) : List Char → Bool
  | [] => pat.isEmpty
  | c :: cs => startsWithChars pat (c :: cs) || containsChars pat cs

/-- JS `hay.includes(pat)`. -/
def containsStr (hay pat : String) : Bool := containsChars pat.data hay.data

/-- Number of non-overlapping occurrences of `...`, as counted by the JS
global regex `/\.\.\./g`. -/
def countEllipses : List Char → Nat
  | '.' :: '.' :: '.' :: rest => countEllipses rest + 1
  | _ :: rest => countEllipses rest
  | [] => 0

/-! ## A small pattern matcher for the JS regexes of the source

Each regex is transcribed as a list of alternatives, each alternative a
sequence of atoms.  `rep f lo` is `f{lo,}` (greediness is irrelevant for the
boolean `test`), `repUpTo f lo extra` is `f{lo,lo+extra}`, `eos` is `$`
(end of input, no multiline flag). -/

inductive PatAtom
  | tok (f : Char → Bool)
  | rep (f : Char → Bool) (lo : Nat)
  | repUpTo (f : Char → Bool) (lo extra : Nat)
  | eos

/-- Does some prefix of `cs` match the atom sequence?  Fuel-indexed so that
the definition is structural (and hence reduces inside `decide`); every
recursive call strictly decreases `atoms.length + cs.length`, so
`matchSeq` below always supplies enough fuel. -/
def matchSeqF : Nat → List PatAtom → List Char → Bool
  | 0, _, _ => false
  | _ + 1, [], _ => true
  | fuel + 1, a :: rest, cs =>
    match a, cs with
    | .tok f, c :: cs2 => f c && matchSeqF fuel rest cs2
    | .tok _, [] => false
    | .rep f 0, _ =>
        matchSeqF fuel rest cs ||
        (match cs with
         | c :: cs2 => f c && matchSeqF fuel (.rep f 0 :: rest) cs2
         | [] => false)
    | .rep f (lo + 1), c :: cs2 => f c && matchSeqF fuel (.rep f lo :: rest) cs2
    | .rep _ (_ + 1), [] => false
    | .repUpTo _ 0 0, _ => matchSeqF fuel rest cs
    | .repUpTo f 0 (e + 1), _ =>
        matchSeqF fuel rest cs ||
        (match cs with
         | c :: cs2 => f c && matchSeqF fuel (.repUpTo f 0 e :: rest) cs2
         | [] => false)
    | .repUpTo f (lo + 1) e, c :: cs2 =>
        f c && matchSeqF fuel (.repUpTo f lo e :: rest) cs2
    | .repUpTo _ (_ + 1) _, [] => false
    | .eos, [] => matchSeqF fuel rest []
    | .eos, _ :: _ => false

/-- Anchored match: some prefix of `cs` matches the sequence. -/
def matchSeq (atoms : List PatAtom) (cs : List Char) : Bool :=
  matchSeqF (atoms.length + cs.length + 1) atoms cs

/-- Unanchored match: the sequence matches starting at some position. -/
def findFrom (atoms : List PatAtom) : List Char → Bool
  | [] => matchSeq atoms []
  | c :: cs2 => matchSeq atoms (c :: cs2) || findFrom atoms cs2

/-- `re.test(s)` for an unanchored regex given as a list of alternatives. -/
def findSeq (alts : List (List PatAtom)) (cs : List Char) : Bool :=
  alts.any (fun a => findFrom a cs)

/-- Match at the start of the input or just after a newline (a `^...` regex
with the `m` flag): helper scanning for positions after a newline. -/
def findAfterNL (atoms : List PatAtom) : List Char → Bool
  | [] => false
  | c :: cs2 => (c = '\n' && matchSeq atoms cs2) || findAfterNL atoms cs2

/-- `^...` with the `m` flag: match at the start of the input or at any
line start. -/
def findLineStarts (atoms : List PatAtom) (cs : List Char) : Bool :=
  matchSeq atoms cs || findAfterNL atoms cs

/-- Literal string as an atom sequence. -/
def lit (s : String) : List PatAtom :=
  s.data.map (fun c => .tok (fun x => x = c))

/-- Case-insensitive literal (the `i` flag; ASCII case fold, as in JS). -/
def litCI (s : String) : List PatAtom :=
  s.data.map (fun c => .tok (fun x => x.toLower = c.toLower))

namespace ImprovedTOCExtractor

/-! ## `ImprovedTOCExtractor.isValidTableOfContentsStrict`
(src/src/api/toc-extractor-improved.ts, lines 330-438) -/

/-- `/검색\s*결과|도서\s*목록|관련\s*도서/` -/
def pInv1 (cs : List Char) : Bool :=
  findSeq
    [lit "검색" ++ [.rep isJsWhite 0] ++ lit "결과",
     lit "도서" ++ [.rep isJsWhite 0] ++ lit "목록",
     lit "관련" ++ [.rep isJsWhite 0] ++ lit "도서"] cs

/-- `/이전\s*페이지|다음\s*페이지|페이지\s*이동/` -/
def pInv2 (cs : List Char) : Bool :=
  findSeq
    [lit "이전" ++ [.rep isJsWhite 0] ++ lit "페이지",
     lit "다음" ++ [.rep isJsWhite 0] ++ lit "페이지",
     lit "페이지" ++ [.rep isJsWhite 0] ++ lit "이동"] cs

/-- `/국립중앙도서관|저작권|copyright/i` -/
def pInv3 (cs : List Char) : Bool :=
  findSeq [litCI "국립중앙도서관", litCI "저작권", litCI "copyright"] cs

/-- `/자료실|소장처|청구기호/` -/
def pInv4 (cs : List Char) : Bool :=
  findSeq [lit "자료실", lit "소장처", lit "청구기호"] cs

/-- `/이 책은|이번 책에서|저자는|책에서는/` -/
def pInv5 (cs : List Char) : Bool :=
  findSeq [lit "이 책은", lit "이번 책에서", lit "저자는", lit "책에서는"] cs

/-- `/독자들에게|우리에게|여러분에게/` -/
def pInv6 (cs : List Char) : Bool :=
  findSeq [lit "독자들에게", lit "우리에게", lit "여러분에게"] cs

/-- `/하지만|그러나|그런데\s+[가-힣\s]{30,}/` -/
def pInv7 (cs : List Char) : Bool :=
  findSeq
    [lit "하지만", lit "그러나",
     lit "그런데" ++
       [.rep isJsWhite 1, .rep (fun c => isHangulCh c || isJsWhite c) 30]] cs

/-- `/입니다\.|습니다\.|됩니다\.|했습니다\./` -/
def pInv8 (cs : List Char) : Bool :=
  findSeq [lit "입니다.", lit "습니다.", lit "됩니다.", lit "했습니다."] cs

/-- `/것이다\.|것입니다\.|것이며|한다\./` -/
def pInv9 (cs : List Char) : Bool :=
  findSeq [lit "것이다.", lit "것입니다.", lit "것이며", lit "한다."] cs

/-- `/^[가-힣\s]{150,}$/` (no `m` flag: the whole string). -/
def pInv10 (cs : List Char) : Bool :=
  150 ≤ cs.length && cs.all (fun c => isHangulCh c || isJsWhite c)

/-- `/^\s*\d+\s*\|\s*[가-힣]{1,10}\s*$/` -/
def pInv11 (cs : List Char) : Bool :=
  matchSeq
    [.rep isJsWhite 0, .rep isDigitCh 1, .rep isJsWhite 0,
     .tok (fun c => c = '|'), .rep isJsWhite 0,
     .repUpTo isHangulCh 1 9, .rep isJsWhite 0, .eos] cs

/-- `/^[\d\s\|\-=]+$/` -/
def pInv12 (cs : List Char) : Bool :=
  !cs.isEmpty &&
  cs.all (fun c => isDigitCh c || isJsWhite c || c = '|' || c = '-' || c = '=')

/-- The `invalidPatterns` array (blacklist). -/
def invalidPatterns : List (List Char → Bool) :=
  [pInv1, pInv2, pInv3, pInv4, pInv5, pInv6, pInv7, pInv8, pInv9, pInv10,
   pInv11, pInv12]

/-- `[장부절편권화]` -/
def isUnitCh (c : Char) : Bool :=
  c = '장' || c = '부' || c = '절' || c = '편' || c = '권' || c = '화'

/-- `/(?:제\s*)?\d+\s*[장부절편권화]/` -/
def pStr1 (cs : List Char) : Bool :=
  findSeq
    [lit "제" ++ [.rep isJsWhite 0, .rep isDigitCh 1, .rep isJsWhite 0,
       .tok isUnitCh],
     [.rep isDigitCh 1, .rep isJsWhite 0, .tok isUnitCh]] cs

/-- `/chapter\s*\d+|part\s*\d+/i` -/
def pStr2 (cs : List Char) : Bool :=
  findSeq
    [litCI "chapter" ++ [.rep isJsWhite 0, .rep isDigitCh 1],
     litCI "part" ++ [.rep isJsWhite 0, .rep isDigitCh 1]] cs

/-- `/\d+\.\s*[가-힣]/` -/
def pStr3 (cs : List Char) : Bool :=
  findSeq
    [[.rep isDigitCh 1, .tok (fun c => c = '.'), .rep isJsWhite 0,
      .tok isHangulCh]] cs

/-- `/\d+\)\s*[가-힣]/` -/
def pStr4 (cs : List Char) : Bool :=
  findSeq
    [[.rep isDigitCh 1, .tok (fun c => c = ')'), .rep isJsWhite 0,
      .tok isHangulCh]] cs

/-- `/^[IVX]+\.\s*[가-힣]/m` -/
def pStr5 (cs : List Char) : Bool :=
  findLineStarts
    [.rep (fun c => c = 'I' || c = 'V' || c = 'X') 1,
     .tok (fun c => c = '.'), .rep isJsWhite 0, .tok isHangulCh] cs

/-- `/서문|머리말|들어가는\s*말|시작하며/` -/
def pStr6 (cs : List Char) : Bool :=
  findSeq
    [lit "서문", lit "머리말",
     lit "들어가는" ++ [.rep isJsWhite 0] ++ lit "말", lit "시작하며"] cs

/-- `/부록|참고문헌|찾아보기|색인/` -/
def pStr7 (cs : List Char) : Bool :=
  findSeq [lit "부록", lit "참고문헌", lit "찾아보기", lit "색인"] cs

/-- The `strongTocPatterns` array. -/
def strongTocPatterns : List (List Char → Bool) :=
  [pStr1, pStr2, pStr3, pStr4, pStr5, pStr6, pStr7]

/-- Does any blacklist pattern match? (The code's loop over
`invalidPatterns` returning `false` on the first match.) -/
def matchesBlacklist (cs : List Char) : Bool :=
  invalidPatterns.any (fun p => p cs)

/-- Number of `strongTocPatterns` matching. -/
def strongPatternCount (cs : List Char) : Nat :=
  (strongTocPatterns.filter (fun p => p cs)).length

/-- The validator's line list: `cleanText.split(/\n+/)` filtered to lines of
trimmed length `> 2`. -/
def validatorLines (cs : List Char) : List (List Char) :=
  (splitRunsNL cs).filter (fun l => 2 < (trimChars l).length)

/-- `ImprovedTOCExtractor.isValidTableOfContentsStrict`. -/
def isValidTableOfContentsStrict (text : String) : Bool :=
  if text.length < 20 ∨ 8000 < text.length then false
  else
    let cleanText := trimChars text.data
    if matchesBlacklist cleanText then false
    else
      let lines := validatorLines cleanText
      if lines.length < 3 then false
      else
        let validLineCount :=
          (lines.filter (fun l =>
            5 ≤ (trimChars l).length ∧ (trimChars l).length ≤ 100)).length
        let totalLength : ℚ := ((lines.map (fun l => (trimChars l).length)).sum : ℕ)
        let avgLineLength : ℚ := totalLength / (lines.length : ℚ)
        let validLineFrac : ℚ := (validLineCount : ℚ) / (lines.length : ℚ)
        if 2 ≤ strongPatternCount cleanText then true
        else if 1 ≤ strongPatternCount cleanText ∧ 5 ≤ lines.length ∧
            (7 : ℚ)/10 ≤ validLineFrac ∧
            10 ≤ avgLineLength ∧ avgLineLength ≤ 60 then true
        else false

end ImprovedTOCExtractor

namespace ImprovedTOCExtractor

/-! ## `ImprovedTOCExtractor.calculateConfidence`
(src/src/api/toc-extractor-improved.ts, lines 856-898) -/

/-- `/^\d+[.\s-]/` (anchored at the start of the tested line). -/
def pConf1 (cs : List Char) : Bool :=
  matchSeq [.rep isDigitCh 1,
    .tok (fun c => c = '.' || isJsWhite c || c = '-')] cs

/-- `/^제\s*\d+[장절]/` -/
def pConf2 (cs : List Char) : Bool :=
  matchSeq (lit "제" ++ [.rep isJsWhite 0, .rep isDigitCh 1,
    .tok (fun c => c = '장' || c = '절')]) cs

/-- `/^[가-힣]\s*[.\s]/` -/
def pConf3 (cs : List Char) : Bool :=
  matchSeq [.tok isHangulCh, .rep isJsWhite 0,
    .tok (fun c => c = '.' || isJsWhite c)] cs

/-- `/=\s*\d+\s*$/` -/
def pConf4 (cs : List Char) : Bool :=
  findFrom [.tok (fun c => c = '='), .rep isJsWhite 0, .rep isDigitCh 1,
    .rep isJsWhite 0, .eos] cs

/-- `/들어가는\s*글|나가는\s*글/` -/
def pConf5 (cs : List Char) : Bool :=
  findSeq
    [lit "들어가는" ++ [.rep isJsWhite 0] ++ lit "글",
     lit "나가는" ++ [.rep isJsWhite 0] ++ lit "글"] cs

/-- The scorer's `patterns` array. -/
def confPatterns : List (List Char → Bool) :=
  [pConf1, pConf2, pConf3, pConf4, pConf5]

/-- `toc.split('\n').filter(line => line.trim().length > 0)`. -/
def tocLines (toc : String) : List (List Char) :=
  (splitOnNL toc.data).filter (fun l => 0 < (trimChars l).length)

/-- The bucketed line-count bonus. -/
def lineCountBonus (n : Nat) : ℚ :=
  if 15 ≤ n then 1/4 else if 8 ≤ n then 3/20 else if 5 ≤ n then 1/10 else 0

/-- `matchedPatterns.length`: patterns matched by some line. -/
def matchedPatternCount (toc : String) : Nat :=
  (confPatterns.filter (fun p => (tocLines toc).any (fun l => p l))).length

/-- The `methodWeights` table (`methodWeights[method] || 0`). -/
def methodWeight (method : String) : ℚ :=
  if method = "targeted-html" then 3/10
  else if method = "direct-api-json" then 1/4
  else if method = "enhanced-metadata" then 1/5
  else if method = "direct-api-text" then 3/20
  else if method = "limited-fallback" then 1/10
  else 0

/-- `lines.reduce((sum, line) => sum + line.trim().length, 0) / lines.length`
(division by zero yields 0 in ℚ; in JS the NaN it produces fails both
comparisons below, with the same effect on the result). -/
def avgTrimmedLineLength (toc : String) : ℚ :=
  (((tocLines toc).map (fun l => (trimChars l).length)).sum : ℕ) /
    ((tocLines toc).length : ℚ)

/-- The two quality bonuses. -/
def qualityBonus (toc : String) : ℚ :=
  (if 15 ≤ avgTrimmedLineLength toc ∧ avgTrimmedLineLength toc ≤ 40
   then 1/10 else 0) +
  (if 500 < toc.length ∧ toc.length < 2000 then 1/10 else 0)

/-- The scorer's running sum before the final clamp. -/
def rawConfidence (toc method : String) : ℚ :=
  2/5 + lineCountBonus (tocLines toc).length +
    (matchedPatternCount toc : ℚ) * (2/25) +
    methodWeight method + qualityBonus toc

/-- `ImprovedTOCExtractor.calculateConfidence`:
`Math.max(0.1, Math.min(1, confidence))`. -/
def calculateConfidence (toc method : String) : ℚ :=
  max (1/10) (min 1 (rawConfidence toc method))

/-! ## The orchestration loop of `extractTableOfContents`
(src/src/api/toc-extractor-improved.ts, lines 39-102)

Each of the four strategy thunks either throws (caught by the `try/catch`
inside the loop) or returns a `TOCExtractionResult`; a run of the
orchestrator is determined by the list of these outcomes in priority
order.  The interpreter also counts how many strategies were invoked. -/

structure TOCMetadata where
  source : String
  patterns : List String
  validationScore : ℚ
deriving DecidableEq

/-- The `TOCExtractionResult` interface. -/
structure TOCExtractionResult where
  success : Bool
  content : Option String
  method : String
  confidence : ℚ
  responseTime : Option ℤ
  error : Option String
  metadata : Option TOCMetadata
deriving DecidableEq

/-- What one strategy call did: threw, or returned a result. -/
inductive StrategyOutcome
  | err (msg : String)
  | res (r : TOCExtractionResult)
deriving DecidableEq

/-- The literal all-failed result returned when no strategy succeeded. -/
def allFailedResult : TOCExtractionResult :=
  { success := false
    content := none
    method := "all-failed"
    confidence := 0
    responseTime := none
    error := some "모든 목차 추출 방법이 실패했습니다."
    metadata := some ⟨"none", [], 0⟩ }

/-- The `for` loop of `extractTableOfContents`, with the best-so-far
accumulator; returns the final result together with the number of strategy
thunks invoked. -/
def extractLoop : List StrategyOutcome → Option TOCExtractionResult →
    TOCExtractionResult × Nat
  | [], some b => (b, 0)
  | [], none => (allFailedResult, 0)
  | .err _ :: rest, best =>
      let p := extractLoop rest best
      (p.1, p.2 + 1)
  | .res r :: rest, best =>
      if r.success then
        if (4 : ℚ)/5 ≤ r.confidence then (r, 1)
        else
          let newBest : Option TOCExtractionResult :=
            match best with
            | none => some r
            | some b => if b.confidence < r.confidence then some r else some b
          let p := extractLoop rest newBest
          (p.1, p.2 + 1)
      else
        let p := extractLoop rest best
        (p.1, p.2 + 1)

/-- `ImprovedTOCExtractor.extractTableOfContents`, as a function of the
strategy outcomes.  The second component counts invoked strategies: the
strategies with indices `≥ (…).2` were never invoked. -/
def extractTableOfContents (outcomes : List StrategyOutcome) :
    TOCExtractionResult × Nat :=
  extractLoop outcomes none

/-- The outcome triggers the `confidence >= 0.8` early exit. -/
def earlyExitAt : StrategyOutcome → Bool
  | .err _ => false
  | .res r => r.success && decide ((4 : ℚ)/5 ≤ r.confidence)

/-- The outcome is an accepted (successful) result. -/
def isAccepted : StrategyOutcome → Bool
  | .err _ => false
  | .res r => r.success

/-- If the outcome is a successful result, its confidence is `< q`. -/
def succBelow (q : ℚ) : StrategyOutcome → Bool
  | .err _ => true
  | .res r => !r.success || decide (r.confidence < q)

/-- If the outcome is a successful result, its confidence is `≤ q`. -/
def succAtMost (q : ℚ) : StrategyOutcome → Bool
  | .err _ => true
  | .res r => !r.success || decide (r.confidence ≤ q)

/-- If the outcome is a result, its confidence lies in `[0,1]`. -/
def confWithin01 : StrategyOutcome → Bool
  | .err _ => true
  | .res r => decide (0 ≤ r.confidence) && decide (r.confidence ≤ 1)

end ImprovedTOCExtractor

namespace Yes24Scraper

/-! ## `Yes24Scraper.scrape` (src/src/scraper/yes24-scraper.ts, lines 10-28)

`scrapeByISBN` / `scrapeByTitle` are network helpers; each call either
throws or returns a string, so a run of `scrape` is determined by the two
`Except`-valued outcomes.  The body may propagate an exception; the
`try/catch` of `scrape` converts it to `''`. -/

/-- The body of `scrape` before its `catch`. -/
def scrapeBody (isbn : String) (title : Option String)
    (isbnOutcome titleOutcome : Except String String) :
    Except String String :=
  let titleStep : Except String String :=
    match title with
    | some t => if t ≠ "" then titleOutcome else .ok ""
    | none => .ok ""
  if isbn ≠ "" then
    match isbnOutcome with
    | .error e => .error e
    | .ok tocByISBN => if tocByISBN ≠ "" then .ok tocByISBN else titleStep
  else titleStep

/-- `Yes24Scraper.scrape`: the body wrapped in `try/catch` (the catch logs
and returns `''`). -/
def scrape (isbn : String) (title : Option String)
    (isbnOutcome titleOutcome : Except String String) :
    Except String String :=
  match scrapeBody isbn title isbnOutcome titleOutcome with
  | .error _ => .ok ""
  | .ok s => .ok s

end Yes24Scraper

namespace MultiSiteScraper

/-! ## `MultiSiteScraper` and `SimpleCache` (multi-site-scraper.ts) -/

/-- One entry of `SimpleCache` (`{ toc, timestamp }`). -/
structure CacheEntry where
  toc : String
  timestamp : ℤ
deriving DecidableEq

/-- `CACHE_DURATION = 7 * 24 * 60 * 60 * 1000` (7 days in ms). -/
def CACHE_DURATION : ℤ := 7 * 24 * 60 * 60 * 1000

/-- The cache `Map`, as an association list in insertion order. -/
def Cache := List (String × CacheEntry)

/-- `Map.prototype.get`. -/
def mapGet : List (String × CacheEntry) → String → Option CacheEntry
  | [], _ => none
  | (k, v) :: rest, key => if k = key then some v else mapGet rest key

/-- `Map.prototype.set` (replace in place, or append). -/
def mapSet : List (String × CacheEntry) → String → CacheEntry →
    List (String × CacheEntry)
  | [], key, v => [(key, v)]
  | (k, w) :: rest, key, v =>
      if k = key then (key, v) :: rest else (k, w) :: mapSet rest key v

/-- `Map.prototype.delete` (under the `Map` key-uniqueness invariant,
removing every binding of the key is the same as removing the entry). -/
def mapDelete (m : List (String × CacheEntry)) (key : String) :
    List (String × CacheEntry) :=
  m.filter (fun p => p.1 ≠ key)

/-- `SimpleCache.get`, at time `now`: a hit returns the stored toc; an
entry with `now - timestamp > CACHE_DURATION` is deleted and misses. -/
def cacheGet (m : List (String × CacheEntry)) (key : String) (now : ℤ) :
    Option String × List (String × CacheEntry) :=
  match mapGet m key with
  | none => (none, m)
  | some e =>
      if CACHE_DURATION < now - e.timestamp then (none, mapDelete m key)
      else (some e.toc, m)

/-- `SimpleCache.set` at time `now`. -/
def cacheSet (m : List (String × CacheEntry)) (key : String) (toc : String)
    (now : ℤ) : List (String × CacheEntry) :=
  mapSet m key ⟨toc, now⟩

/-- `ScrapingResult` (src/src/scraper/types.ts), metadata omitted (never
set by `MultiSiteScraper`). -/
structure ScrapingResult where
  source : String
  toc : String
  confidence : ℤ
deriving DecidableEq

/-- What one provider's `scrape` call did: threw/rejected, or resolved
with a toc string. -/
inductive ProviderOutcome
  | threw (msg : String)
  | returned (toc : String)
deriving DecidableEq

/-- `lines = toc.split('\n').filter(line => line.trim())`. -/
def tocLineCount (toc : String) : Nat :=
  ((splitOnNL toc.data).filter (fun l => !(trimChars l).isEmpty)).length

/-- `MultiSiteScraper.calculateConfidence` (0..100 scale, clamped). -/
def calculateConfidence (toc : String) : ℤ :=
  let score : ℤ :=
    10
    + (if containsStr toc "장" || containsStr toc "편" || containsStr toc "부"
       then 20 else 0)
    + (if containsStr toc "제1장" || containsStr toc "제 1 장" then 15 else 0)
    + (if containsStr toc "Chapter" || containsStr toc "Part" then 15 else 0)
    + (if findSeq [litCI "Chapter" ++ [.rep isJsWhite 1, .rep isDigitCh 1]]
         toc.data then 10 else 0)
    + (if findSeq [[.rep isDigitCh 1, .tok (fun c => c = '.')]] toc.data
       then 10 else 0)
    + (if findSeq [[.rep isDigitCh 1, .tok (fun c => c = '-'),
         .rep isDigitCh 1]] toc.data then 5 else 0)
    + (if 200 < toc.length then 15 else 0)
    + (if 500 < toc.length then 10 else 0)
    + (if 1000 < toc.length then 5 else 0)
    + (if containsStr toc "페이지" ||
         findSeq [litCI "p" ++ [.tok (fun c => c = '.'), .rep isJsWhite 0,
           .rep isDigitCh 1]] toc.data then 10 else 0)
    + (if findSeq [[.rep isDigitCh 1, .rep isJsWhite 0] ++ lit "쪽"] toc.data
       then 8 else 0)
    + (if 5 < tocLineCount toc then 10 else 0)
    + (if 10 < tocLineCount toc then 5 else 0)
    + (if containsStr toc "·" || containsStr toc "•" || containsStr toc "-"
       then 5 else 0)
    - (if containsStr toc "..." ∧ 10 < countEllipses toc.data then 10 else 0)
    - (if toc.length < 100 then 20 else 0)
  max 0 (min score 100)

/-- `getCacheKey`: `isbn || title || 'unknown'`. -/
def getCacheKey (isbn : String) (title : Option String) : String :=
  if isbn ≠ "" then isbn
  else
    match title with
    | some t => if t ≠ "" then t else "unknown"
    | none => "unknown"

/-- What one settled provider task contributes: nothing if it threw or its
toc failed the `toc && toc.length > 50` floor, otherwise a scored result. -/
def resultOf : String × ProviderOutcome → Option ScrapingResult
  | (_, .threw _) => none
  | (name, .returned toc) =>
      if toc ≠ "" ∧ 50 < toc.length
      then some ⟨name, toc, calculateConfidence toc⟩
      else none

/-- The settled provider results that survive the floor (one provider
failure discards only that provider). -/
def scrapeResults (providers : List (String × ProviderOutcome)) :
    List ScrapingResult :=
  providers.filterMap resultOf

/-- `MultiSiteScraper.scrapeTOC`, as a function of the cache state, the
current time, the arguments, and each configured provider's outcome.
Returns the result, the new cache state, and the number of providers
invoked (all of them on a cache miss, none on a hit). -/
def scrapeTOC (cache : List (String × CacheEntry)) (now : ℤ) (isbn : String)
    (title : Option String) (providers : List (String × ProviderOutcome)) :
    Option ScrapingResult × List (String × CacheEntry) × Nat :=
  match (cacheGet cache (getCacheKey isbn title) now).1 with
  | some toc =>
      (some ⟨"Cache", toc, 100⟩, (cacheGet cache (getCacheKey isbn title) now).2, 0)
  | none =>
      match (scrapeResults providers).insertionSort
          (fun a b => b.confidence ≤ a.confidence) with
      | [] => ((none : Option ScrapingResult),
               (cacheGet cache (getCacheKey isbn title) now).2, providers.length)
      | best :: _ =>
          (some best,
           cacheSet (cacheGet cache (getCacheKey isbn title) now).2
             (getCacheKey isbn title) best.toc now,
           providers.length)

end MultiSiteScraper

namespace TOCPerformanceMonitor

/-! ## `TOCPerformanceMonitor` (src/src/api/toc-performance.ts) -/

/-- One entry of `methodBreakdown`. -/
structure MethodStats where
  attempts : ℕ
  successes : ℕ
  avgResponseTime : ℚ
  avgConfidence : ℚ
  lastUsed : ℤ
deriving DecidableEq

/-- `confidenceDistribution`. -/
structure ConfidenceDistribution where
  high : ℕ
  medium : ℕ
  low : ℕ
deriving DecidableEq

/-- One entry of `recentResults`. -/
structure RecentResult where
  timestamp : ℤ
  book : String
  method : String
  success : Bool
  confidence : ℚ
  responseTime : ℚ
deriving DecidableEq

/-- The `PerformanceMetrics` object (`methodBreakdown` as an association
list in key-insertion order). -/
structure PerformanceMetrics where
  totalAttempts : ℕ
  totalSuccesses : ℕ
  totalResponseTime : ℚ
  methodBreakdown : List (String × MethodStats)
  confidenceDistribution : ConfidenceDistribution
  recentResults : List RecentResult
deriving DecidableEq

/-- `resetMetrics()`. -/
def initialMetrics : PerformanceMetrics := ⟨0, 0, 0, [], ⟨0, 0, 0⟩, []⟩

/-- `maxRecentResults`. -/
def maxRecentResults : ℕ := 100

/-- The arguments of one `recordResult` call (`now` models the `new Date()`
timestamps taken during the call). -/
structure RecordCall where
  now : ℤ
  bookTitle : String
  method : String
  success : Bool
  confidence : ℚ
  responseTime : ℚ
deriving DecidableEq

/-- Lookup in `methodBreakdown`. -/
def statsGet : List (String × MethodStats) → String → Option MethodStats
  | [], _ => none
  | (k, v) :: rest, key => if k = key then some v else statsGet rest key

/-- In-place update of the method's entry. -/
def statsUpdate : List (String × MethodStats) → String →
    (MethodStats → MethodStats) → List (String × MethodStats)
  | [], _, _ => []
  | (k, v) :: rest, key, f =>
      if k = key then (k, f v) :: rest else (k, v) :: statsUpdate rest key f

/-- The per-method update of one `recordResult` call: `attempts++`,
`lastUsed = new Date()`, and on success `successes++` plus the incremental
running means. -/
def stepStats (c : RecordCall) (s : MethodStats) : MethodStats :=
  let s1 := { s with attempts := s.attempts + 1, lastUsed := c.now }
  if c.success then
    let n : ℕ := s1.successes + 1
    { s1 with
      successes := n
      avgResponseTime :=
        (s1.avgResponseTime * ((n : ℚ) - 1) + c.responseTime) / (n : ℚ)
      avgConfidence :=
        (s1.avgConfidence * ((n : ℚ) - 1) + c.confidence) / (n : ℚ) }
  else s1

/-- The confidence-bucket update (only reached on success). -/
def stepDistribution (c : RecordCall) (d : ConfidenceDistribution) :
    ConfidenceDistribution :=
  if (4 : ℚ)/5 ≤ c.confidence then { d with high := d.high + 1 }
  else if (1 : ℚ)/2 ≤ c.confidence then { d with medium := d.medium + 1 }
  else { d with low := d.low + 1 }

/-- The entry pushed onto `recentResults`. -/
def toRecentResult (c : RecordCall) : RecentResult :=
  ⟨c.now, c.bookTitle, c.method, c.success, c.confidence, c.responseTime⟩

/-- `TOCPerformanceMonitor.recordResult`. -/
def recordResult (m : PerformanceMetrics) (c : RecordCall) :
    PerformanceMetrics :=
  let breakdown0 :=
    match statsGet m.methodBreakdown c.method with
    | some _ => m.methodBreakdown
    | none => m.methodBreakdown ++ [(c.method, ⟨0, 0, 0, 0, c.now⟩)]
  let breakdown := statsUpdate breakdown0 c.method (stepStats c)
  let dist :=
    if c.success then stepDistribution c m.confidenceDistribution
    else m.confidenceDistribution
  let buf := m.recentResults ++ [toRecentResult c]
  let buf2 := if maxRecentResults < buf.length then buf.drop 1 else buf
  { totalAttempts := m.totalAttempts + 1
    totalSuccesses :=
      if c.success then m.totalSuccesses + 1 else m.totalSuccesses
    totalResponseTime := m.totalResponseTime + c.responseTime
    methodBreakdown := breakdown
    confidenceDistribution := dist
    recentResults := buf2 }

/-- One row of `getMethodSuccessRates()`. -/
structure MethodRate where
  method : String
  successRate : ℚ
  attempts : ℕ
  avgResponseTime : ℚ
  avgConfidence : ℚ
  lastUsed : ℤ
deriving DecidableEq

/-- The row built from one `methodBreakdown` entry. -/
def toMethodRate (p : String × MethodStats) : MethodRate :=
  ⟨p.1,
   if 0 < p.2.attempts then (p.2.successes : ℚ) / (p.2.attempts : ℚ) else 0,
   p.2.attempts, p.2.avgResponseTime, p.2.avgConfidence, p.2.lastUsed⟩

/-- `getMethodSuccessRates()`: rows sorted by success rate, descending
(JS `Array.prototype.sort` is stable). -/
def getMethodSuccessRates (breakdown : List (String × MethodStats)) :
    List MethodRate :=
  (breakdown.map toMethodRate).insertionSort
    (fun a b => b.successRate ≤ a.successRate)

/-- The `scoredMethods` list of `getBestMethod()`: rows with at least 3
attempts, paired with `successRate * 0.7 + avgConfidence * 0.3` and sorted
by that composite score, descending. -/
def scoredMethods (methodStats : List MethodRate) : List (MethodRate × ℚ) :=
  ((methodStats.filter (fun s => 3 ≤ s.attempts)).map
    (fun s => (s, s.successRate * (7/10) + s.avgConfidence * (3/10)))
  ).insertionSort (fun a b => b.2 ≤ a.2)

/-- `TOCPerformanceMonitor.getBestMethod`. -/
def getBestMethod (breakdown : List (String × MethodStats)) : Option String :=
  match getMethodSuccessRates breakdown with
  | [] => none
  | m0 :: _ =>
      match scoredMethods (getMethodSuccessRates breakdown) with
      | s :: _ => some s.1.method
      | [] => some m0.method

end TOCPerformanceMonitor

/-! ## Concrete test inputs -/

open ImprovedTOCExtractor in
/-- A successful strategy result with the given method and confidence. -/
def resOf (m : String) (c : ℚ) : TOCExtractionResult :=
  ⟨true, some "TOC", m, c, some 100, none, none⟩

open ImprovedTOCExtractor in
/-- A failed strategy result (shape of `createFailResult`). -/
def failOf (m e : String) : TOCExtractionResult :=
  ⟨false, none, m, 0, some 5, some e, some ⟨"none", [], 0⟩⟩

/-- A table of contents of 58 characters (above the 50-character floor of
the multi-site scraper). -/
def demoToc : String :=
  "제1장 요리의 시작과 준비\n제2장 재료 선택의 기술\n제3장 조리의 실제\n부록 참고문헌 찾아보기 색인 모음"

/-- A provider list: one provider succeeds, one throws, one returns a toc
below the length floor. -/
def demoProviders : List (String × MultiSiteScraper.ProviderOutcome) :=
  [("Kyobo", .returned demoToc), ("Aladin", .threw "timeout"),
   ("YES24", .returned "짧음")]

/-- Text that matches both a blacklist pattern (`검색 결과`) and a strong
structural pattern (`제1장` …). -/
def demoBadText : String := "제1장 시작\n제2장 중간\n제3장 끝\n검색 결과"

/-! ## Helper lemmas about the orchestration loop -/

namespace ImprovedTOCExtractor

theorem extractLoop_earlyExit (outcomes : List StrategyOutcome) :
    ∀ (best : Option TOCExtractionResult) (i : ℕ) (r : TOCExtractionResult),
    outcomes.get? i = some (.res r) → r.success = true →
    (4 : ℚ)/5 ≤ r.confidence →
    (∀ o ∈ outcomes.take i, earlyExitAt o = false) →
    extractLoop outcomes best = (r, i + 1) := by
  induction outcomes with
  | nil => intro best i r h; simp at h
  | cons o rest ih =>
    intro best i r hget hs hc hpre
    cases i with
    | zero =>
      have ho : o = .res r := by simpa using hget
      subst ho
      simp [extractLoop, hs, hc]
    | succ i2 =>
      have ho : earlyExitAt o = false := hpre o (by simp [List.take_succ_cons])
      have hpre2 : ∀ x ∈ rest.take i2, earlyExitAt x = false := by
        intro x hx
        exact hpre x (by simp [List.take_succ_cons]; right; exact hx)
      have hget2 : rest.get? i2 = some (.res r) := hget
      cases o with
      | err m =>
        simp [extractLoop, ih best i2 r hget2 hs hc hpre2]
      | res r2 =>
        by_cases hsucc : r2.success
        · have hlow : ¬ ((4 : ℚ)/5 ≤ r2.confidence) := by
            simpa [earlyExitAt, hsucc] using ho
          simp [extractLoop, hsucc, hlow, ih _ i2 r hget2 hs hc hpre2]
        · simp [extractLoop, hsucc, ih best i2 r hget2 hs hc hpre2]

theorem extractLoop_keepBest (outcomes : List StrategyOutcome) :
    ∀ b : TOCExtractionResult,
    (∀ o ∈ outcomes, earlyExitAt o = false) →
    (∀ o ∈ outcomes, succAtMost b.confidence o = true) →
    (extractLoop outcomes (some b)).1 = b := by
  induction outcomes with
  | nil => intro b _ _; rfl
  | cons o rest ih =>
    intro b hne hle
    have hne2 : ∀ x ∈ rest, earlyExitAt x = false := fun x hx =>
      hne x (List.mem_cons_of_mem o hx)
    have hle2 : ∀ x ∈ rest, succAtMost b.confidence x = true := fun x hx =>
      hle x (List.mem_cons_of_mem o hx)
    cases o with
    | err m => simp [extractLoop, ih b hne2 hle2]
    | res r =>
      by_cases hsucc : r.success
      · have hlow : ¬ ((4 : ℚ)/5 ≤ r.confidence) := by
          simpa [earlyExitAt, hsucc] using hne _ (List.mem_cons_self _ _)
        have hra : r.confidence ≤ b.confidence := by
          simpa [succAtMost, hsucc] using hle _ (List.mem_cons_self _ _)
        have hnotlt : ¬ (b.confidence < r.confidence) := not_lt.mpr hra
        simp [extractLoop, hsucc, hlow, hnotlt, ih b hne2 hle2]
      · simp [extractLoop, hsucc, ih b hne2 hle2]

theorem extractLoop_firstMax (outcomes : List StrategyOutcome) :
    ∀ (best : Option TOCExtractionResult) (i : ℕ) (ri : TOCExtractionResult),
    (∀ o ∈ outcomes, earlyExitAt o = false) →
    outcomes.get? i = some (.res ri) → ri.success = true →
    (∀ o ∈ outcomes.take i, succBelow ri.confidence o = true) →
    (∀ o ∈ outcomes, succAtMost ri.confidence o = true) →
    (∀ b, best = some b → b.confidence < ri.confidence) →
    (extractLoop outcomes best).1 = ri := by
  induction outcomes with
  | nil => intro best i ri _ h; simp at h
  | cons o rest ih =>
    intro best i ri hne hget hs hbefore hall hbest
    have hne2 : ∀ x ∈ rest, earlyExitAt x = false := fun x hx =>
      hne x (List.mem_cons_of_mem o hx)
    have hall2 : ∀ x ∈ rest, succAtMost ri.confidence x = true := fun x hx =>
      hall x (List.mem_cons_of_mem o hx)
    cases i with
    | zero =>
      have ho : o = .res ri := by simpa using hget
      subst ho
      have hlow : ¬ ((4 : ℚ)/5 ≤ ri.confidence) := by
        simpa [earlyExitAt, hs] using hne _ (List.mem_cons_self _ _)
      have hstay : (extractLoop rest (some ri)).1 = ri :=
        extractLoop_keepBest rest ri hne2 hall2
      cases best with
      | none => simp [extractLoop, hs, hlow, hstay]
      | some b =>
        have hblt : b.confidence < ri.confidence := hbest b rfl
        simp [extractLoop, hs, hlow, hblt, hstay]
    | succ i2 =>
      have hget2 : rest.get? i2 = some (.res ri) := hget
      have hbefore2 : ∀ x ∈ rest.take i2, succBelow ri.confidence x = true := by
        intro x hx
        exact hbefore x (by simp [List.take_succ_cons]; right; exact hx)
      cases o with
      | err m =>
        simp [extractLoop, ih best i2 ri hne2 hget2 hs hbefore2 hall2 hbest]
      | res r2 =>
        by_cases hsucc : r2.success
        · have hlow : ¬ ((4 : ℚ)/5 ≤ r2.confidence) := by
            simpa [earlyExitAt, hsucc] using hne _ (List.mem_cons_self _ _)
          have hmem : StrategyOutcome.res r2 ∈
              List.take (i2 + 1) (StrategyOutcome.res r2 :: rest) := by
            rw [List.take_succ_cons]
            exact List.mem_cons_self _ _
          have hr2lt : r2.confidence < ri.confidence := by
            simpa [succBelow, hsucc] using hbefore _ hmem
          cases best with
          | none =>
            have hbest2 : ∀ b, (some r2 : Option TOCExtractionResult) = some b →
                b.confidence < ri.confidence := by
              intro b hb
              cases hb
              exact hr2lt
            simp [extractLoop, hsucc, hlow,
              ih (some r2) i2 ri hne2 hget2 hs hbefore2 hall2 hbest2]
          | some b =>
            have hblt : b.confidence < ri.confidence := hbest b rfl
            by_cases hup : b.confidence < r2.confidence
            · have hbest2 : ∀ x, (some r2 : Option TOCExtractionResult) = some x →
                  x.confidence < ri.confidence := by
                intro x hx
                cases hx
                exact hr2lt
              simp [extractLoop, hsucc, hlow, hup,
                ih (some r2) i2 ri hne2 hget2 hs hbefore2 hall2 hbest2]
            · have hbest2 : ∀ x, (some b : Option TOCExtractionResult) = some x →
                  x.confidence < ri.confidence := by
                intro x hx
                cases hx
                exact hblt
              simp [extractLoop, hsucc, hlow, hup,
                ih (some b) i2 ri hne2 hget2 hs hbefore2 hall2 hbest2]
        · simp [extractLoop, hsucc,
            ih best i2 ri hne2 hget2 hs hbefore2 hall2 hbest]

theorem extractLoop_allFail (outcomes : List StrategyOutcome) :
    (∀ o ∈ outcomes, isAccepted o = false) →
    extractLoop outcomes none = (allFailedResult, outcomes.length) := by
  induction outcomes with
  | nil => intro h; rfl
  | cons o rest ih =>
    intro h
    have hrest : ∀ x ∈ rest, isAccepted x = false := fun x hx =>
      h x (List.mem_cons_of_mem o hx)
    cases o with
    | err m => simp [extractLoop, ih hrest]
    | res r =>
      have hs : r.success = false := by
        simpa [isAccepted] using h _ (List.mem_cons_self _ _)
      simp [extractLoop, hs, ih hrest]

theorem extractLoop_provenance (outcomes : List StrategyOutcome) :
    ∀ best : Option TOCExtractionResult,
    (∃ i r, outcomes.get? i = some (.res r) ∧
       (extractLoop outcomes best).1 = r) ∨
    (∃ b, best = some b ∧ (extractLoop outcomes best).1 = b) ∨
    (best = none ∧ (extractLoop outcomes best).1 = allFailedResult) := by
  induction outcomes with
  | nil =>
    intro best
    cases best with
    | none => exact Or.inr (Or.inr ⟨rfl, rfl⟩)
    | some b => exact Or.inr (Or.inl ⟨b, rfl, rfl⟩)
  | cons o rest ih =>
    intro best
    cases o with
    | err m =>
      rcases ih best with ⟨i, r, hg, he⟩ | ⟨b, hb, he⟩ | ⟨hb, he⟩
      · exact Or.inl ⟨i + 1, r, hg, by simpa [extractLoop] using he⟩
      · exact Or.inr (Or.inl ⟨b, hb, by simpa [extractLoop] using he⟩)
      · exact Or.inr (Or.inr ⟨hb, by simpa [extractLoop] using he⟩)
    | res r =>
      by_cases hsucc : r.success
      · by_cases hhi : (4 : ℚ)/5 ≤ r.confidence
        · exact Or.inl ⟨0, r, rfl, by simp [extractLoop, hsucc, hhi]⟩
        · cases best with
          | none =>
            rcases ih (some r) with ⟨i, r2, hg, he⟩ | ⟨b, hb, he⟩ | ⟨hb, _⟩
            · exact Or.inl ⟨i + 1, r2, hg,
                by simpa [extractLoop, hsucc, hhi] using he⟩
            · obtain rfl : r = b := Option.some.inj hb
              exact Or.inl ⟨0, r, rfl,
                by simpa [extractLoop, hsucc, hhi] using he⟩
            · exact absurd hb (by simp)
          | some b =>
            by_cases hup : b.confidence < r.confidence
            · rcases ih (some r) with ⟨i, r2, hg, he⟩ | ⟨x, hx, he⟩ | ⟨hx, _⟩
              · exact Or.inl ⟨i + 1, r2, hg,
                  by simpa [extractLoop, hsucc, hhi, hup] using he⟩
              · obtain rfl : r = x := Option.some.inj hx
                exact Or.inl ⟨0, r, rfl,
                  by simpa [extractLoop, hsucc, hhi, hup] using he⟩
              · exact absurd hx (by simp)
            · rcases ih (some b) with ⟨i, r2, hg, he⟩ | ⟨x, hx, he⟩ | ⟨hx, _⟩
              · exact Or.inl ⟨i + 1, r2, hg,
                  by simpa [extractLoop, hsucc, hhi, hup] using he⟩
              · obtain rfl : b = x := Option.some.inj hx
                exact Or.inr (Or.inl ⟨b, rfl,
                  by simpa [extractLoop, hsucc, hhi, hup] using he⟩)
              · exact absurd hx (by simp)
      · rcases ih best with ⟨i, r2, hg, he⟩ | ⟨b, hb, he⟩ | ⟨hb, he⟩
        · exact Or.inl ⟨i + 1, r2, hg, by simpa [extractLoop, hsucc] using he⟩
        · exact Or.inr (Or.inl ⟨b, hb, by simpa [extractLoop, hsucc] using he⟩)
        · exact Or.inr (Or.inr ⟨hb, by simpa [extractLoop, hsucc] using he⟩)

end ImprovedTOCExtractor

namespace MultiSiteScraper

theorem mapGet_mapSet (m : List (String × CacheEntry)) (k : String)
    (v : CacheEntry) : mapGet (mapSet m k v) k = some v := by
  induction m with
  | nil => simp [mapSet, mapGet]
  | cons p rest ih =>
    by_cases h : p.1 = k
    · simp [mapSet, mapGet, h]
    · simp [mapSet, mapGet, h, ih]

theorem mapGet_mapDelete (m : List (String × CacheEntry)) (k : String) :
    mapGet (mapDelete m k) k = none := by
  induction m with
  | nil => rfl
  | cons p rest ih =>
    by_cases h : p.1 = k
    · simpa [mapDelete, List.filter, h] using ih
    · simpa [mapDelete, mapGet, List.filter, h] using ih

/-- The confidence of every entry of `scrapeResults` is a clamped score. -/
theorem scrapeResults_confidence (providers : List (String × ProviderOutcome))
    (r : ScrapingResult) (h : r ∈ scrapeResults providers) :
    ∃ toc, r.confidence = calculateConfidence toc := by
  rcases List.mem_filterMap.mp h with ⟨p, _, hp⟩
  rcases p with ⟨name, po⟩
  cases po with
  | threw msg => simp [resultOf] at hp
  | returned toc =>
    rw [resultOf] at hp
    by_cases hc : toc ≠ "" ∧ 50 < toc.length
    · refine ⟨toc, ?_⟩
      rw [if_pos hc] at hp
      obtain rfl : (⟨name, toc, calculateConfidence toc⟩ : ScrapingResult) = r :=
        Option.some.inj hp
      rfl
    · rw [if_neg hc] at hp
      exact absurd hp (by simp)

theorem calculateConfidence_bounds (toc : String) :
    0 ≤ calculateConfidence toc ∧ calculateConfidence toc ≤ 100 := by
  unfold calculateConfidence
  constructor
  · exact le_max_left _ _
  · exact max_le (by norm_num) (min_le_right _ _)

end MultiSiteScraper

namespace TOCPerformanceMonitor

theorem recordResult_recent (m : PerformanceMetrics) (c : RecordCall) :
    (recordResult m c).recentResults =
      (if maxRecentResults < (m.recentResults ++ [toRecentResult c]).length
       then (m.recentResults ++ [toRecentResult c]).drop 1
       else m.recentResults ++ [toRecentResult c]) := rfl

theorem foldl_recordResult (calls : List RecordCall) :
    ∀ m : PerformanceMetrics, m.recentResults.length ≤ 100 →
    (calls.foldl recordResult m).totalAttempts = m.totalAttempts + calls.length ∧
    (calls.foldl recordResult m).totalSuccesses =
      m.totalSuccesses + (calls.filter (fun c => c.success)).length ∧
    (calls.foldl recordResult m).recentResults =
      (m.recentResults ++ calls.map toRecentResult).drop
        (m.recentResults.length + calls.length - 100) := by
  induction calls with
  | nil =>
    intro m hm
    refine ⟨by simp, by simp, ?_⟩
    have h0 : m.recentResults.length - 100 = 0 := by omega
    simp [h0]
  | cons c cs ih =>
    intro m hm
    have hstep : (c :: cs).foldl recordResult m =
        cs.foldl recordResult (recordResult m c) := rfl
    have hatt : (recordResult m c).totalAttempts = m.totalAttempts + 1 := rfl
    have hsucc : (recordResult m c).totalSuccesses =
        m.totalSuccesses + (if c.success then 1 else 0) := by
      simp only [recordResult]
      by_cases h : c.success <;> simp [h]
    have hfilter : (List.filter (fun x => x.success) (c :: cs)).length =
        (if c.success then 1 else 0) +
          (List.filter (fun x => x.success) cs).length := by
      by_cases h : c.success <;> simp [List.filter_cons, h, Nat.add_comm]
    by_cases hlen : m.recentResults.length = 100
    · have hcond : maxRecentResults <
          (m.recentResults ++ [toRecentResult c]).length := by
        simp [maxRecentResults, hlen]
      have hrec : (recordResult m c).recentResults =
          (m.recentResults ++ [toRecentResult c]).drop 1 := by
        rw [recordResult_recent, if_pos hcond]
      have hlen2 : (recordResult m c).recentResults.length ≤ 100 := by
        rw [hrec]
        simp [hlen]
      obtain ⟨ha, hs, hr⟩ := ih (recordResult m c) hlen2
      refine ⟨?_, ?_, ?_⟩
      · rw [hstep, ha, hatt, List.length_cons]
        omega
      · rw [hstep, hs, hsucc, hfilter]
        omega
      · rw [hstep, hr, hrec]
        have hlendrop : ((m.recentResults ++ [toRecentResult c]).drop 1).length
            = 100 := by
          simp [hlen]
        rw [hlendrop]
        have hd : (m.recentResults ++ [toRecentResult c]).drop 1 ++
              cs.map toRecentResult =
            ((m.recentResults ++ [toRecentResult c]) ++
              cs.map toRecentResult).drop 1 :=
          (List.drop_append_of_le_length (by simp)).symm
        rw [hd, List.drop_drop]
        simp only [List.append_assoc, List.singleton_append, List.map_cons]
        congr 1
        simp only [List.length_cons]
        omega
    · have hlt : m.recentResults.length < 100 := lt_of_le_of_ne hm hlen
      have hcond : ¬ (maxRecentResults <
          (m.recentResults ++ [toRecentResult c]).length) := by
        simp only [maxRecentResults, List.length_append, List.length_cons,
          List.length_nil, not_lt]
        omega
      have hrec : (recordResult m c).recentResults =
          m.recentResults ++ [toRecentResult c] := by
        rw [recordResult_recent, if_neg hcond]
      have hlen2 : (recordResult m c).recentResults.length ≤ 100 := by
        rw [hrec]
        simp only [List.length_append, List.length_cons, List.length_nil]
        omega
      obtain ⟨ha, hs, hr⟩ := ih (recordResult m c) hlen2
      refine ⟨?_, ?_, ?_⟩
      · rw [hstep, ha, hatt, List.length_cons]
        omega
      · rw [hstep, hs, hsucc, hfilter]
        omega
      · rw [hstep, hr, hrec]
        simp only [List.append_assoc, List.singleton_append, List.map_cons,
          List.length_append, List.length_cons, List.length_nil]
        congr 1
        omega

end TOCPerformanceMonitor

namespace ImprovedTOCExtractor

theorem earlyExitAt_of_fail (r : TOCExtractionResult)
    (h : r.success = false) : earlyExitAt (.res r) = false := by
  simp [earlyExitAt, h]

theorem earlyExitAt_of_low (r : TOCExtractionResult)
    (h : r.confidence < 4/5) : earlyExitAt (.res r) = false := by
  simp [earlyExitAt, not_le.mpr h]

theorem succAtMost_of_le (q : ℚ) (r : TOCExtractionResult)
    (h : r.confidence ≤ q) : succAtMost q (.res r) = true := by
  simp [succAtMost, h]

theorem succBelow_of_lt (q : ℚ) (r : TOCExtractionResult)
    (h : r.confidence < q) : succBelow q (.res r) = true := by
  simp [succBelow, h]

theorem succBelow_of_fail (q : ℚ) (r : TOCExtractionResult)
    (h : r.success = false) : succBelow q (.res r) = true := by
  simp [succBelow, h]

end ImprovedTOCExtractor

/-! ## The claims -/

open ImprovedTOCExtractor

/-- C1: if the `i`-th strategy outcome (in the orchestrator's fixed order)
is a successful result with confidence `≥ 0.8`, and no earlier outcome
triggers the early exit, then `extractTableOfContents` returns that very
result and invokes exactly `i + 1` strategies — no strategy after `i` is
ever invoked. -/
theorem claim_C1_early_exit (outcomes : List StrategyOutcome) (i : ℕ)
    (r : TOCExtractionResult)
    (hget : outcomes.get? i = some (.res r))
    (hsucc : r.success = true)
    (hconf : (4 : ℚ)/5 ≤ r.confidence)
    (hfirst : ∀ o ∈ outcomes.take i, earlyExitAt o = false) :
    extractTableOfContents outcomes = (r, i + 1) :=
  extractLoop_earlyExit outcomes none i r hget hsucc hconf hfirst

/-- C1 witness: with outcomes `[fail, 0.4, 0.9, 0.7]` the orchestrator
returns the third strategy's result and invokes only 3 of the 4
strategies. -/
theorem claim_C1_early_exit_witness :
    extractTableOfContents
      [.res (failOf "TargetedHTML" "controlNo가 필요합니다"),
       .res (resOf "DirectAPI" (2/5)),
       .res (resOf "EnhancedMetadata" (9/10)),
       .res (resOf "LimitedFallback" (7/10))] =
      (resOf "EnhancedMetadata" (9/10), 3) :=
  claim_C1_early_exit _ 2 _ rfl rfl (by norm_num [resOf])
    (by
      intro o ho
      have ht : List.take 2
          [StrategyOutcome.res (failOf "TargetedHTML" "controlNo가 필요합니다"),
           StrategyOutcome.res (resOf "DirectAPI" (2/5)),
           StrategyOutcome.res (resOf "EnhancedMetadata" (9/10)),
           StrategyOutcome.res (resOf "LimitedFallback" (7/10))] =
          [StrategyOutcome.res (failOf "TargetedHTML" "controlNo가 필요합니다"),
           StrategyOutcome.res (resOf "DirectAPI" (2/5))] := rfl
      rw [ht] at ho
      rcases List.mem_cons.mp ho with rfl | ho2
      · exact earlyExitAt_of_fail _ rfl
      · rcases List.mem_cons.mp ho2 with rfl | ho3
        · exact earlyExitAt_of_low _ (by norm_num [resOf])
        · exact absurd ho3 (List.not_mem_nil o))

/-- C4 counterexample: when every strategy fails, the returned terminal
result does not carry the per-strategy reasons: two runs whose four
strategies fail with entirely different diagnostic reasons return the
same result, whose `error` is the fixed generic message and whose
metadata carries an empty pattern list. -/
theorem claim_C4_allfailed_counterexample :
    (extractTableOfContents
      [.res (failOf "TargetedHTML" "reason A1"),
       .res (failOf "DirectAPI" "reason A2"),
       .res (failOf "EnhancedMetadata" "reason A3"),
       .res (failOf "LimitedFallback" "reason A4")]).1 =
    (extractTableOfContents
      [.res (failOf "TargetedHTML" "reason B1"),
       .res (failOf "DirectAPI" "reason B2"),
       .res (failOf "EnhancedMetadata" "reason B3"),
       .res (failOf "LimitedFallback" "reason B4")]).1 ∧
    (extractTableOfContents
      [.res (failOf "TargetedHTML" "reason A1"),
       .res (failOf "DirectAPI" "reason A2"),
       .res (failOf "EnhancedMetadata" "reason A3"),
       .res (failOf "LimitedFallback" "reason A4")]).1.error =
      some "모든 목차 추출 방법이 실패했습니다." ∧
    (extractTableOfContents
      [.res (failOf "TargetedHTML" "reason A1"),
       .res (failOf "DirectAPI" "reason A2"),
       .res (failOf "EnhancedMetadata" "reason A3"),
       .res (failOf "LimitedFallback" "reason A4")]).1.metadata =
      some ⟨"none", [], 0⟩ := by
  refine ⟨rfl, rfl, rfl⟩

/-- C4 (amended): when no strategy produced an accepted (successful)
result, the orchestrator returns the fixed `all-failed` terminal result —
generic error message, confidence 0, empty metadata — after invoking every
strategy; the per-strategy reasons are only logged, not carried. -/
theorem claim_C4_allfailed_generic (outcomes : List StrategyOutcome)
    (h : ∀ o ∈ outcomes, isAccepted o = false) :
    extractTableOfContents outcomes = (allFailedResult, outcomes.length) :=
  extractLoop_allFail outcomes h

/-- C4 witness: four distinct failures yield the fixed terminal result. -/
theorem claim_C4_allfailed_generic_witness :
    extractTableOfContents
      [.res (failOf "TargetedHTML" "controlNo가 필요합니다"),
       .err "network error",
       .res (failOf "EnhancedMetadata" "응답이 비어있습니다"),
       .res (failOf "LimitedFallback" "목차를 찾을 수 없습니다")] =
      (allFailedResult, 4) :=
  claim_C4_allfailed_generic _ (by decide)

/-- C5: (1) the orchestrator is a function of the strategy outputs:
identical outputs give the identical winning result (method and
confidence); (2) when no outcome reaches the 0.8 early exit, the winner is
the first success attaining the maximal confidence — in particular, on a
tie the strategy encountered earlier in priority order wins, because
best-so-far replacement uses strict `>`. -/
theorem claim_C5_determinism_tiebreak :
    (∀ o1 o2 : List StrategyOutcome, o1 = o2 →
      extractTableOfContents o1 = extractTableOfContents o2) ∧
    (∀ (outcomes : List StrategyOutcome) (i : ℕ) (ri : TOCExtractionResult),
      (∀ o ∈ outcomes, earlyExitAt o = false) →
      outcomes.get? i = some (.res ri) → ri.success = true →
      (∀ o ∈ outcomes.take i, succBelow ri.confidence o = true) →
      (∀ o ∈ outcomes, succAtMost ri.confidence o = true) →
      (extractTableOfContents outcomes).1 = ri) := by
  constructor
  · intro o1 o2 h
    rw [h]
  · intro outcomes i ri h1 h2 h3 h4 h5
    exact extractLoop_firstMax outcomes none i ri h1 h2 h3 h4 h5
      (fun b hb => absurd hb (by simp))

/-- C5 witness: on the tie `[A→0.5, B→0.5]` the earlier strategy A wins. -/
theorem claim_C5_determinism_tiebreak_witness :
    (extractTableOfContents
      [.res (resOf "TargetedHTML" (1/2)),
       .res (resOf "DirectAPI" (1/2))]).1 = resOf "TargetedHTML" (1/2) :=
  claim_C5_determinism_tiebreak.2 _ 0 _
    (by
      intro o ho
      rcases List.mem_cons.mp ho with rfl | ho2
      · exact earlyExitAt_of_low _ (by norm_num [resOf])
      · rcases List.mem_cons.mp ho2 with rfl | ho3
        · exact earlyExitAt_of_low _ (by norm_num [resOf])
        · exact absurd ho3 (List.not_mem_nil o))
    rfl rfl
    (by intro o ho; exact absurd ho (by simp))
    (by
      intro o ho
      rcases List.mem_cons.mp ho with rfl | ho2
      · exact succAtMost_of_le _ _ (by norm_num [resOf])
      · rcases List.mem_cons.mp ho2 with rfl | ho3
        · exact succAtMost_of_le _ _ (by norm_num [resOf])
        · exact absurd ho3 (List.not_mem_nil o))

/-- C7: no exception escapes to the caller.  (1) For every sequence of
strategy outcomes — including ones that throw — the orchestrator returns a
well-formed result: either some strategy's own result or the structured
all-failed result; the thrown errors are absorbed by the per-strategy
`try/catch`.  (2) `Yes24Scraper.scrape` resolves with a string for every
behaviour of its internal fetch helpers; an internal failure becomes
`''`. -/
theorem claim_C7_no_exception_escape :
    (∀ outcomes : List StrategyOutcome,
      (∃ i r, outcomes.get? i = some (.res r) ∧
        (extractTableOfContents outcomes).1 = r) ∨
      (extractTableOfContents outcomes).1 = allFailedResult) ∧
    (∀ (isbn : String) (title : Option String)
        (isbnOutcome titleOutcome : Except String String),
      ∃ s, Yes24Scraper.scrape isbn title isbnOutcome titleOutcome =
        Except.ok s) := by
  constructor
  · intro outcomes
    rcases extractLoop_provenance outcomes none with
      ⟨i, r, hg, he⟩ | ⟨b, hb, _⟩ | ⟨_, he⟩
    · exact Or.inl ⟨i, r, hg, he⟩
    · exact absurd hb (by simp)
    · exact Or.inr he
  · intro isbn title isbnOutcome titleOutcome
    unfold Yes24Scraper.scrape
    cases h : Yes24Scraper.scrapeBody isbn title isbnOutcome titleOutcome with
    | error e => exact ⟨"", rfl⟩
    | ok s => exact ⟨s, rfl⟩

/-- C8: the blacklist takes precedence — every text whose trimmed form
matches at least one blacklist (`invalidPatterns`) pattern is rejected by
the validator, regardless of how many strong structural patterns it also
matches (the blacklist loop runs before the structural analysis). -/
theorem claim_C8_blacklist_precedence (text : String)
    (h : matchesBlacklist (trimChars text.data) = true) :
    isValidTableOfContentsStrict text = false := by
  unfold isValidTableOfContentsStrict
  split
  · rfl
  · simp [h]

/-- C8 witness: `demoBadText` matches both the `검색 결과` blacklist pattern
and a strong structural pattern, and is rejected. -/
theorem claim_C8_blacklist_precedence_witness :
    matchesBlacklist (trimChars demoBadText.data) = true ∧
    1 ≤ strongPatternCount (trimChars demoBadText.data) ∧
    isValidTableOfContentsStrict demoBadText = false :=
  ⟨by decide, by decide, claim_C8_blacklist_precedence demoBadText (by decide)⟩

/-- C10: for every non-empty text and every method string the single-source
scorer returns at least its 0.4 base — every adjustment it adds is
non-negative — and hence the lower clamp at 0.1 never alters the value
(`max 0.1 (min 1 raw) = min 1 raw`). -/
theorem claim_C10_scorer_floor (toc method : String) (_h : toc ≠ "") :
    2/5 ≤ calculateConfidence toc method ∧
    calculateConfidence toc method = min 1 (rawConfidence toc method) := by
  have h1 : (0 : ℚ) ≤ lineCountBonus (tocLines toc).length := by
    unfold lineCountBonus
    split_ifs <;> norm_num
  have h2 : (0 : ℚ) ≤ (matchedPatternCount toc : ℚ) * (2/25) := by positivity
  have h3 : (0 : ℚ) ≤ methodWeight method := by
    unfold methodWeight
    split_ifs <;> norm_num
  have h4 : (0 : ℚ) ≤ qualityBonus toc := by
    unfold qualityBonus
    split_ifs <;> norm_num
  have hraw : (2 : ℚ)/5 ≤ rawConfidence toc method := by
    unfold rawConfidence
    linarith
  have hmin : (2 : ℚ)/5 ≤ min 1 (rawConfidence toc method) :=
    le_min (by norm_num) hraw
  unfold calculateConfidence
  exact ⟨le_trans hmin (le_max_right _ _),
    max_eq_right (le_trans (by norm_num) hmin)⟩

/-- C10 witness at a concrete non-empty toc and a known method. -/
theorem claim_C10_scorer_floor_witness :
    2/5 ≤ calculateConfidence "제1장 서론" "targeted-html" ∧
    calculateConfidence "제1장 서론" "targeted-html" =
      min 1 (rawConfidence "제1장 서론" "targeted-html") :=
  claim_C10_scorer_floor "제1장 서론" "targeted-html" (by decide)

/-- C3 counterexample: an aggregator cache hit returns a result whose
confidence is 100, which does not lie in `[0,1]` — the multi-site scraper
works on a 0..100 scale, so the claim as stated fails for aggregator
results. -/
theorem claim_C3_confidence_counterexample :
    (MultiSiteScraper.scrapeTOC [("9788901234567", ⟨demoToc, 0⟩)] 86400000
      "9788901234567" none demoProviders).1 =
      some ⟨"Cache", demoToc, 100⟩ ∧
    ¬ ((100 : ℤ) ≤ 1) := ⟨rfl, by decide⟩

/-- C3 (amended): the single-source scorer and hence every orchestrator
result (failures carry 0) lies in `[0,1]`; aggregator results — cache hits
included — lie in `[0,100]`, the multi-site scraper's own scale, not in
`[0,1]`. -/
theorem claim_C3_confidence_ranges :
    (∀ toc method : String,
      0 ≤ calculateConfidence toc method ∧ calculateConfidence toc method ≤ 1) ∧
    (∀ outcomes : List StrategyOutcome,
      (∀ o ∈ outcomes, confWithin01 o = true) →
      0 ≤ (extractTableOfContents outcomes).1.confidence ∧
        (extractTableOfContents outcomes).1.confidence ≤ 1) ∧
    (∀ (cache : List (String × MultiSiteScraper.CacheEntry)) (now : ℤ)
        (isbn : String) (title : Option String)
        (providers : List (String × MultiSiteScraper.ProviderOutcome))
        (r : MultiSiteScraper.ScrapingResult)
        (cache2 : List (String × MultiSiteScraper.CacheEntry)) (n : ℕ),
      MultiSiteScraper.scrapeTOC cache now isbn title providers =
        (some r, cache2, n) →
      0 ≤ r.confidence ∧ r.confidence ≤ 100) := by
  refine ⟨?_, ?_, ?_⟩
  · intro toc method
    unfold calculateConfidence
    constructor
    · exact le_trans (by norm_num) (le_max_left (1/10 : ℚ) _)
    · exact max_le (by norm_num) (min_le_left _ _)
  · intro outcomes hin
    unfold extractTableOfContents
    rcases extractLoop_provenance outcomes none with
      ⟨i, r, hg, he⟩ | ⟨b, hb, _⟩ | ⟨_, he⟩
    · rw [he]
      simpa [confWithin01] using hin _ (List.get?_mem hg)
    · exact absurd hb (by simp)
    · rw [he]
      norm_num [allFailedResult]
  · intro cache now isbn title providers r cache2 n h
    unfold MultiSiteScraper.scrapeTOC at h
    cases hcg : (MultiSiteScraper.cacheGet cache
        (MultiSiteScraper.getCacheKey isbn title) now).1 with
    | some toc =>
      rw [hcg] at h
      obtain rfl : (⟨"Cache", toc, 100⟩ : MultiSiteScraper.ScrapingResult) = r :=
        Option.some.inj (congrArg Prod.fst h)
      norm_num
    | none =>
      rw [hcg] at h
      cases hs : (MultiSiteScraper.scrapeResults providers).insertionSort
          (fun a b => b.confidence ≤ a.confidence) with
      | nil =>
        rw [hs] at h
        exact absurd (congrArg Prod.fst h) (by simp)
      | cons best tail =>
        rw [hs] at h
        obtain rfl : best = r := Option.some.inj (congrArg Prod.fst h)
        have hmem : best ∈ MultiSiteScraper.scrapeResults providers := by
          refine (List.mem_insertionSort
            (fun a b => b.confidence ≤ a.confidence)).mp ?_
          rw [hs]
          exact List.mem_cons_self _ _
        obtain ⟨toc, htoc⟩ :=
          MultiSiteScraper.scrapeResults_confidence providers best hmem
        rw [htoc]
        exact MultiSiteScraper.calculateConfidence_bounds toc

/-- C3 witness for the amended ranges, at concrete inputs. -/
theorem claim_C3_confidence_ranges_witness :
    (0 ≤ calculateConfidence demoToc "targeted-html" ∧
      calculateConfidence demoToc "targeted-html" ≤ 1) ∧
    (0 ≤ (extractTableOfContents [.err "network"]).1.confidence ∧
      (extractTableOfContents [.err "network"]).1.confidence ≤ 1) ∧
    (0 ≤ (⟨"Cache", demoToc, 100⟩ : MultiSiteScraper.ScrapingResult).confidence ∧
      (⟨"Cache", demoToc, 100⟩ : MultiSiteScraper.ScrapingResult).confidence ≤ 100) :=
  ⟨claim_C3_confidence_ranges.1 demoToc "targeted-html",
   claim_C3_confidence_ranges.2.1 [.err "network"]
     (by
       intro o ho
       rcases List.mem_cons.mp ho with rfl | ho2
       · rfl
       · exact absurd ho2 (List.not_mem_nil o)),
   claim_C3_confidence_ranges.2.2 [("9788901234567", ⟨demoToc, 0⟩)] 0
     "9788901234567" none [] _ _ _ rfl⟩

open MultiSiteScraper in
/-- C2: the aggregator cache round-trip.  (1) With no cache entry for the
key, `scrapeTOC` invokes all configured providers.  (2) If such a first
call at time `t0` returned a result, a second call within the TTL window
(`t1 - t0 ≤ 7 days`) invokes zero providers and returns the previously
cached toc with confidence fixed at the maximum (100), leaving the cache
unchanged.  (3) A cache read whose entry satisfies
`now - createdAt > ttl` returns nothing, deletes the entry, and a
`scrapeTOC` call at that time invokes all providers again. -/
theorem claim_C2_cache_roundtrip :
    (∀ (cache : List (String × CacheEntry)) (now : ℤ) (isbn : String)
        (title : Option String)
        (providers : List (String × ProviderOutcome)),
      mapGet cache (getCacheKey isbn title) = none →
      (scrapeTOC cache now isbn title providers).2.2 = providers.length) ∧
    (∀ (cache : List (String × CacheEntry)) (t0 t1 : ℤ) (isbn : String)
        (title : Option String)
        (providers providers2 : List (String × ProviderOutcome))
        (r : ScrapingResult) (cache1 : List (String × CacheEntry)) (n : ℕ),
      mapGet cache (getCacheKey isbn title) = none →
      scrapeTOC cache t0 isbn title providers = (some r, cache1, n) →
      t1 - t0 ≤ CACHE_DURATION →
      scrapeTOC cache1 t1 isbn title providers2 =
        (some ⟨"Cache", r.toc, 100⟩, cache1, 0)) ∧
    (∀ (cache : List (String × CacheEntry)) (now : ℤ) (k : String)
        (e : CacheEntry),
      mapGet cache k = some e → CACHE_DURATION < now - e.timestamp →
      (cacheGet cache k now).1 = none ∧
      mapGet (cacheGet cache k now).2 k = none ∧
      (∀ (isbn : String) (title : Option String)
          (providers : List (String × ProviderOutcome)),
        getCacheKey isbn title = k →
        (scrapeTOC cache now isbn title providers).2.2 = providers.length)) := by
  refine ⟨?_, ?_, ?_⟩
  · intro cache now isbn title providers h
    have hcg : (cacheGet cache (getCacheKey isbn title) now).1 = none := by
      unfold cacheGet
      rw [h]
    unfold scrapeTOC
    rw [hcg]
    cases hs : (scrapeResults providers).insertionSort
        (fun a b => b.confidence ≤ a.confidence) with
    | nil => rfl
    | cons best tail => rfl
  · intro cache t0 t1 isbn title providers providers2 r cache1 n h0 h1 hwin
    have hcg1 : cacheGet cache (getCacheKey isbn title) t0 = (none, cache) := by
      unfold cacheGet
      rw [h0]
    unfold scrapeTOC at h1
    rw [hcg1] at h1
    cases hs : (scrapeResults providers).insertionSort
        (fun a b => b.confidence ≤ a.confidence) with
    | nil =>
      rw [hs] at h1
      exact absurd (congrArg Prod.fst h1) (by simp)
    | cons best tail =>
      rw [hs] at h1
      obtain rfl : best = r := Option.some.inj (congrArg Prod.fst h1)
      have hcache1 : cacheSet cache (getCacheKey isbn title) best.toc t0 =
          cache1 := congrArg (fun p => p.2.1) h1
      have hget2 : mapGet cache1 (getCacheKey isbn title) =
          some ⟨best.toc, t0⟩ := by
        rw [← hcache1]
        exact mapGet_mapSet cache (getCacheKey isbn title) ⟨best.toc, t0⟩
      have hcg2 : cacheGet cache1 (getCacheKey isbn title) t1 =
          (some best.toc, cache1) := by
        unfold cacheGet
        rw [hget2]
        show (if CACHE_DURATION < t1 - t0 then
            ((none : Option String), mapDelete cache1 (getCacheKey isbn title))
          else (some best.toc, cache1)) = (some best.toc, cache1)
        rw [if_neg (not_lt.mpr hwin)]
      unfold scrapeTOC
      rw [hcg2]
  · intro cache now k e hget hexp
    have hcg : cacheGet cache k now = (none, mapDelete cache k) := by
      unfold cacheGet
      rw [hget]
      show (if CACHE_DURATION < now - e.timestamp then
          ((none : Option String), mapDelete cache k)
        else (some e.toc, cache)) = (none, mapDelete cache k)
      rw [if_pos hexp]
    refine ⟨by rw [hcg], ?_, ?_⟩
    · rw [hcg]
      exact mapGet_mapDelete cache k
    · intro isbn title providers hkey
      unfold scrapeTOC
      rw [hkey, hcg]
      cases hs : (scrapeResults providers).insertionSort
          (fun a b => b.confidence ≤ a.confidence) with
      | nil => rfl
      | cons best tail => rfl

open MultiSiteScraper in
/-- C2 witness: an empty cache, then a hit one day later, then an expired
read 700000000 ms (> 7 days) after the entry was written. -/
theorem claim_C2_cache_roundtrip_witness :
    (scrapeTOC [] 0 "9788901234567" none demoProviders).2.2 = 3 ∧
    scrapeTOC [("9788901234567", ⟨demoToc, 0⟩)] 86400000 "9788901234567" none
        demoProviders =
      (some ⟨"Cache", demoToc, 100⟩, [("9788901234567", ⟨demoToc, 0⟩)], 0) ∧
    (cacheGet [("9788901234567", ⟨demoToc, 0⟩)] "9788901234567" 700000000).1 =
      none ∧
    mapGet (cacheGet [("9788901234567", ⟨demoToc, 0⟩)] "9788901234567"
      700000000).2 "9788901234567" = none ∧
    (scrapeTOC [("9788901234567", ⟨demoToc, 0⟩)] 700000000 "9788901234567" none
      demoProviders).2.2 = 3 :=
  have h2 := claim_C2_cache_roundtrip.2.1 [] 0 86400000 "9788901234567" none
    demoProviders demoProviders
    ⟨"Kyobo", demoToc, MultiSiteScraper.calculateConfidence demoToc⟩
    [("9788901234567", ⟨demoToc, 0⟩)] 3 rfl rfl (by decide)
  have h3 := claim_C2_cache_roundtrip.2.2 [("9788901234567", ⟨demoToc, 0⟩)]
    700000000 "9788901234567" ⟨demoToc, 0⟩ rfl (by decide)
  ⟨claim_C2_cache_roundtrip.1 [] 0 "9788901234567" none demoProviders rfl,
   h2, h3.1, h3.2.1, h3.2.2 "9788901234567" none demoProviders rfl⟩

open TOCPerformanceMonitor in
/-- C6 counterexample: with a single method recorded once (one attempt,
one success), `getBestMethod` still recommends it through the
`methodStats[0].method` fallback, although every method has fewer than 3
attempts — so the claim as stated fails. -/
theorem claim_C6_best_method_counterexample :
    getBestMethod [("TargetedHTML", ⟨1, 1, 0, 0, 0⟩)] =
      some "TargetedHTML" ∧
    ∀ rate ∈ getMethodSuccessRates [("TargetedHTML", ⟨1, 1, 0, 0, 0⟩)],
      rate.attempts < 3 := by
  constructor
  · rfl
  · intro rate hr
    rcases List.mem_cons.mp hr with rfl | hr2
    · decide
    · exact absurd hr2 (List.not_mem_nil rate)

open TOCPerformanceMonitor in
/-- C6 (amended): the `attempts ≥ 3` filter governs the recommendation only
when some method satisfies it: whenever at least one recorded method has at
least 3 attempts, the method returned by `getBestMethod` has at least 3
attempts; otherwise the code falls back to the method with the highest
success rate regardless of its attempt count. -/
theorem claim_C6_best_method_min_attempts
    (breakdown : List (String × MethodStats))
    (h : ∃ p ∈ breakdown, 3 ≤ p.2.attempts) :
    ∃ m rate, getBestMethod breakdown = some m ∧
      rate ∈ getMethodSuccessRates breakdown ∧ rate.method = m ∧
      3 ≤ rate.attempts := by
  obtain ⟨p, hp, hp3⟩ := h
  have hr0s : toMethodRate p ∈ getMethodSuccessRates breakdown := by
    unfold getMethodSuccessRates
    exact (List.mem_insertionSort
      (fun a b : MethodRate => b.successRate ≤ a.successRate)).mpr
      (List.mem_map_of_mem toMethodRate hp)
  have hfil : toMethodRate p ∈
      (getMethodSuccessRates breakdown).filter (fun s => 3 ≤ s.attempts) := by
    rw [List.mem_filter]
    exact ⟨hr0s, by simpa using hp3⟩
  have hscore : (toMethodRate p,
      (toMethodRate p).successRate * (7/10) +
        (toMethodRate p).avgConfidence * (3/10)) ∈
      scoredMethods (getMethodSuccessRates breakdown) := by
    unfold scoredMethods
    exact (List.mem_insertionSort
      (fun a b : MethodRate × ℚ => b.2 ≤ a.2)).mpr
      (List.mem_map_of_mem _ hfil)
  obtain ⟨m0, ms, hms⟩ : ∃ m0 ms, getMethodSuccessRates breakdown = m0 :: ms := by
    cases hq : getMethodSuccessRates breakdown with
    | nil =>
      rw [hq] at hr0s
      exact absurd hr0s (List.not_mem_nil _)
    | cons a b => exact ⟨a, b, rfl⟩
  obtain ⟨s, ss, hsm⟩ : ∃ s ss,
      scoredMethods (getMethodSuccessRates breakdown) = s :: ss := by
    cases hq : scoredMethods (getMethodSuccessRates breakdown) with
    | nil =>
      rw [hq] at hscore
      exact absurd hscore (List.not_mem_nil _)
    | cons a b => exact ⟨a, b, rfl⟩
  have hs_mem : s ∈ scoredMethods (getMethodSuccessRates breakdown) := by
    rw [hsm]
    exact List.mem_cons_self _ _
  have hbest : getBestMethod breakdown = some s.1.method := by
    unfold getBestMethod
    rw [hms] at hsm
    rw [hms, hsm]
  have hs1 : s.1 ∈
      (getMethodSuccessRates breakdown).filter (fun s => 3 ≤ s.attempts) := by
    unfold scoredMethods at hs_mem
    obtain ⟨x, hxf, hxe⟩ := List.mem_map.mp
      ((List.mem_insertionSort
        (fun a b : MethodRate × ℚ => b.2 ≤ a.2)).mp hs_mem)
    rw [← hxe]
    exact hxf
  have hmem2 := List.mem_filter.mp hs1
  exact ⟨s.1.method, s.1, hbest, hmem2.1, rfl, by simpa using hmem2.2⟩

open TOCPerformanceMonitor in
/-- C6 witness: with one method recorded 3 times, the recommendation is
that method and it has 3 recorded attempts. -/
theorem claim_C6_best_method_min_attempts_witness :
    ∃ m rate,
      getBestMethod [("TargetedHTML", ⟨3, 2, 150, 0, 0⟩)] = some m ∧
      rate ∈ getMethodSuccessRates [("TargetedHTML", ⟨3, 2, 150, 0, 0⟩)] ∧
      rate.method = m ∧ 3 ≤ rate.attempts :=
  claim_C6_best_method_min_attempts [("TargetedHTML", ⟨3, 2, 150, 0, 0⟩)]
    ⟨("TargetedHTML", ⟨3, 2, 150, 0, 0⟩), List.mem_cons_self _ _, by decide⟩

open TOCPerformanceMonitor in
/-- C9: after any sequence of `recordResult` calls starting from a fresh
monitor, `totalAttempts` equals the number of calls, `totalSuccesses`
equals the number of calls with `success = true`, and `recentResults` is
exactly the entries of the last (at most) 100 calls — the buffer never
exceeds 100 entries and evicts the oldest first. -/
theorem claim_C9_record_invariants (calls : List RecordCall) :
    (calls.foldl recordResult initialMetrics).totalAttempts = calls.length ∧
    (calls.foldl recordResult initialMetrics).totalSuccesses =
      (calls.filter (fun c => c.success)).length ∧
    (calls.foldl recordResult initialMetrics).recentResults =
      (calls.map toRecentResult).drop (calls.length - 100) ∧
    (calls.foldl recordResult initialMetrics).recentResults.length ≤ 100 := by
  obtain ⟨ha, hs, hr⟩ :=
    foldl_recordResult calls initialMetrics (by simp [initialMetrics])
  have h3 : (calls.foldl recordResult initialMetrics).recentResults =
      (calls.map toRecentResult).drop (calls.length - 100) := by
    simpa [initialMetrics] using hr
  refine ⟨by simpa [initialMetrics] using ha,
    by simpa [initialMetrics] using hs, h3, ?_⟩
  rw [h3, List.length_drop, List.length_map]
  omega
